import Mathlib

/-!
Verification of the CodeTime Navigator repository.

This file gives a shallow embedding of the parts of the repository that the
frozen claims are about:

* the relevance scorer `score_relevance` and the commit categorizer
  `categorize_commit` (Python, documented in the architecture section of
  `frontend/next.config.js`);
* the evidence normalization, query error handling and suggested-query lookup
  of `frontend/src/components/QueryInterface.tsx` together with the static
  table `frontend/src/data/repositoryExamples.ts`;
* the polling loop of `RepositoryInput.tsx` (`pollForCompletion`) and the
  example-analysis timeout of the app page (`handleExampleAnalysis`);
* the commit timeline preparation of `AnalysisResults.tsx`
  (`prepareCommitTimelineData`).

Machine strings are modelled as Lean `String` values and the relevant
string primitives (Python `in`, `str.split()`, `str.lower()`, JavaScript
`includes`, `toLowerCase`, `trim`, truthiness of the empty string, `undefined` and `0`)
are defined explicitly below so that every theorem can be evaluated by the
kernel.
-/

/-- Python and JavaScript substring search, step one: does `needle` occur at
the very start of `hay`? -/
def startsWithL : List Char → List Char → Bool
  | [], _ => true
  | _ :: _, [] => false
  | a :: as, b :: bs => a == b && startsWithL as bs

/-- Python `needle in hay` and JavaScript `hay.includes(needle)` on strings:
contiguous substring occurrence, with the empty needle occurring in every
string. -/
def containsL (needle : List Char) : List Char → Bool
  | [] => startsWithL needle []
  | c :: rest => startsWithL needle (c :: rest) || containsL needle rest

/-- Substring occurrence lifted to `String`. -/
def strIn (needle hay : String) : Bool := containsL needle.data hay.data

/-- Python `str.lower()` and JavaScript `toLowerCase()` for the ASCII data
appearing in this repository (per-character lowering). -/
def pyLower (s : String) : String := String.mk (s.data.map Char.toLower)

/-- Fuel-indexed helper for whitespace tokenization; structural recursion on
the fuel keeps the function kernel-computable. -/
def tokenizeF : Nat → List Char → List (List Char)
  | 0, _ => []
  | _ + 1, [] => []
  | fuel + 1, c :: rest =>
    if c.isWhitespace then tokenizeF fuel rest
    else (c :: rest.takeWhile (fun d => !d.isWhitespace))
        :: tokenizeF fuel (rest.dropWhile (fun d => !d.isWhitespace))

/-- Python `str.split()` with no separator argument: split on runs of
whitespace, never producing empty tokens. -/
def tokenize (l : List Char) : List (List Char) := tokenizeF l.length l

theorem dropWhile_length_le {α : Type} (p : α → Bool) :
    ∀ l : List α, (l.dropWhile p).length ≤ l.length := by
  intro l
  induction l with
  | nil => simp [List.dropWhile]
  | cons a l ih =>
    simp only [List.dropWhile]
    cases p a <;> simp
    omega

theorem tokenizeF_congr : ∀ f g l, l.length ≤ f → l.length ≤ g →
    tokenizeF f l = tokenizeF g l := by
  intro f
  induction f with
  | zero =>
    intro g l hf _
    have hl : l = [] := by cases l <;> simp_all
    subst hl
    cases g <;> rfl
  | succ f ih =>
    intro g l hf hg
    cases l with
    | nil => cases g <;> rfl
    | cons c rest =>
      cases g with
      | zero => simp at hg
      | succ g =>
        simp only [tokenizeF]
        cases hws : c.isWhitespace with
        | true =>
          simp only [if_pos rfl]
          exact ih g rest (by simp at hf; omega) (by simp at hg; omega)
        | false =>
          simp only [Bool.false_eq_true, if_neg]
          have hd := dropWhile_length_le (fun d => !d.isWhitespace) rest
          have := ih g (rest.dropWhile (fun d => !d.isWhitespace))
            (by simp at hf; omega) (by simp at hg; omega)
          rw [this]
          simp

theorem tokenize_nil : tokenize [] = [] := rfl

theorem tokenize_ws {c : Char} (rest : List Char) (h : c.isWhitespace = true) :
    tokenize (c :: rest) = tokenize rest := by
  simp only [tokenize, List.length_cons, tokenizeF, h, if_pos]

theorem tokenize_not_ws {c : Char} (rest : List Char) (h : c.isWhitespace = false) :
    tokenize (c :: rest) =
      (c :: rest.takeWhile (fun d => !d.isWhitespace))
        :: tokenize (rest.dropWhile (fun d => !d.isWhitespace)) := by
  simp only [tokenize, List.length_cons, tokenizeF, h, Bool.false_eq_true, if_neg]
  have hd := dropWhile_length_le (fun d => !d.isWhitespace) rest
  rw [tokenizeF_congr rest.length (rest.dropWhile (fun d => !d.isWhitespace)).length
    (rest.dropWhile (fun d => !d.isWhitespace)) hd le_rfl]
  simp

/-- Whitespace splitting lifted to `String`. -/
def tokenizeStr (s : String) : List String := (tokenize s.data).map String.mk

/-- A commit as seen by the scorer: `commit.message`, `commit.category`,
`commit.files` of `score_relevance` in the architecture description inside
`frontend/next.config.js`. -/
structure Commit where
  message : String
  category : String
  files : List String
deriving DecidableEq

/-- Embedding of `score_relevance(query, commit)` from
`frontend/next.config.js`.  The Python loop

  score = 0
  query_words = query.lower().split()
  for word in query_words:
      if word in commit.message.lower(): score += 3
      if word in commit.category: score += 2
      if word in commit.files: score += 1
  return score

is rendered as a left fold.  Note that `word in commit.files` is Python list
membership (the token must equal a changed file path exactly), while the two
string tests are substring tests. -/
def score_relevance (query : String) (commit : Commit) : Int :=
  let query_words := tokenizeStr (pyLower query)
  query_words.foldl (fun score word =>
    let score := if strIn word (pyLower commit.message) then score + 3 else score
    let score := if strIn word commit.category then score + 2 else score
    let score := if commit.files.contains word then score + 1 else score
    score) 0

/-- The category table of `categorize_commit` in `frontend/next.config.js`,
in its fixed (insertion) order. -/
def categories : List (String × List String) :=
  [("bugfix", ["fix", "bug", "error", "issue"]),
   ("feature", ["feat", "add", "new", "implement"]),
   ("refactor", ["refactor", "restructure", "cleanup"])]

set_option linter.unusedVariables false in
/-- Embedding of `categorize_commit(message, files)` from
`frontend/next.config.js`: the first category whose keyword list has a
keyword occurring in the lowercased message wins, otherwise the result is
the string `unknown`.  The `files` argument is never consulted. -/
def categorize_commit (message : String) (files : List String) : String :=
  match categories.find? (fun p => p.2.any (fun word => strIn word (pyLower message))) with
  | some p => p.1
  | none => "unknown"

/-! ## Claim C1: the scoring pipeline -/

/-- Modelled from the claim text (not from the code): remove punctuation,
read as the non-alphanumeric characters, from a token. -/
def stripPunct (s : String) : String := String.mk (s.data.filter Char.isAlphanum)

/-- The scoring procedure exactly as the specification describes it:
whitespace tokenization, punctuation stripping, lowercasing, dropping empty
tokens, de-duplication, then a sum over the distinct tokens of +3 for a
message occurrence, +2 for a category occurrence and +1 for an occurrence in
any changed file path. -/
def scoreSpec (query : String) (c : Commit) : Int :=
  let toks :=
    ((((tokenizeStr query).map (fun t => pyLower (stripPunct t))).filter
      (fun t => !(t == ""))).dedup)
  (toks.map (fun w =>
    (if strIn w (pyLower c.message) then (3 : Int) else 0) +
    (if strIn w c.category then 2 else 0) +
    (if c.files.any (fun f => strIn w f) then 1 else 0))).sum

/-- Per-token contribution actually added by `score_relevance` for one
occurrence of `word` in the query token list. -/
def wordScore (c : Commit) (word : String) : Int :=
  (if strIn word (pyLower c.message) then 3 else 0) +
  (if strIn word c.category then 2 else 0) +
  (if c.files.contains word then 1 else 0)

theorem foldl_add_eq_sum (f : String → Int) :
    ∀ (l : List String) (i : Int), l.foldl (fun s w => s + f w) i = i + (l.map f).sum := by
  intro l
  induction l with
  | nil => intro i; simp
  | cons w l ih =>
    intro i
    simp only [List.foldl, List.map, List.sum_cons]
    rw [ih]
    ring

/-- The claim describes the score as a sum over *distinct* cleaned tokens;
the code sums over every raw lowercased whitespace token, with no
punctuation stripping, no de-duplication, and with file matches requiring
the token to equal a changed file path.  The query `fix fix` against the
commit (message `fix bug`, category `bugfix`, no files) gets 10 from the
code (5 twice) but 5 from the described pipeline. -/
theorem c1_scoring_pipeline_counterexample :
    score_relevance "fix fix" ⟨"fix bug", "bugfix", []⟩ ≠
      scoreSpec "fix fix" ⟨"fix bug", "bugfix", []⟩ := by decide

/-- C1, amended: the relevance score is the sum, over every occurrence of a
whitespace token of the lowercased query (no punctuation stripping, no
de-duplication), of +3 if the token occurs in the lowercased message, +2 if
it occurs in the category label and +1 if it equals one of the changed file
paths. -/
theorem c1_scoring_pipeline_amended (query : String) (c : Commit) :
    score_relevance query c = ((tokenizeStr (pyLower query)).map (wordScore c)).sum := by
  unfold score_relevance
  have hbody : (fun (score : Int) (word : String) =>
      let score := if strIn word (pyLower c.message) then score + 3 else score
      let score := if strIn word c.category then score + 2 else score
      let score := if c.files.contains word then score + 1 else score
      score) = fun s w => s + wordScore c w := by
    funext s w
    simp only [wordScore]
    split <;> split <;> split <;> ring
  rw [hbody, foldl_add_eq_sum]
  simp

/-! ## Claim C2: non-negativity and the zero-overlap law -/

theorem startsWithL_self : ∀ l : List Char, startsWithL l l = true := by
  intro l
  induction l with
  | nil => rfl
  | cons a as ih => simp [startsWithL, ih]

theorem containsL_self (l : List Char) : containsL l l = true := by
  cases l with
  | nil => rfl
  | cons a as => simp [containsL, startsWithL_self]

/-- C2: the relevance score is a non-negative integer, and whenever no query
token occurs in the lowercased message, in the category label or in any
changed file path, the score is exactly 0. -/
theorem c2_score_nonneg_zero_overlap (query : String) (c : Commit) :
    0 ≤ score_relevance query c ∧
    ((∀ w ∈ tokenizeStr (pyLower query),
        strIn w (pyLower c.message) = false ∧ strIn w c.category = false ∧
        ∀ f ∈ c.files, strIn w f = false) →
      score_relevance query c = 0) := by
  constructor
  · rw [c1_scoring_pipeline_amended]
    apply List.sum_nonneg
    intro x hx
    simp only [List.mem_map] at hx
    obtain ⟨w, _, rfl⟩ := hx
    unfold wordScore
    split <;> split <;> split <;> norm_num
  · intro h
    rw [c1_scoring_pipeline_amended]
    have hz : ∀ w ∈ tokenizeStr (pyLower query), wordScore c w = 0 := by
      intro w hw
      obtain ⟨hm, hc, hf⟩ := h w hw
      have hfiles : c.files.contains w = false := by
        cases hcon : c.files.contains w with
        | false => rfl
        | true =>
          have hmem : w ∈ c.files := by
            simpa using hcon
          have hx := hf w hmem
          unfold strIn at hx
          simp [containsL_self] at hx
      unfold wordScore
      rw [hm, hc, hfiles]
      simp
    have : (tokenizeStr (pyLower query)).map (wordScore c) =
        (tokenizeStr (pyLower query)).map (fun _ => (0 : Int)) :=
      List.map_congr_left hz
    rw [this]
    simp

/-- Concrete instance of C2 with the overlap hypothesis discharged: the query
`zebra` shares nothing with a bugfix commit, so it scores exactly 0, and the
score is non-negative. -/
theorem c2_score_nonneg_zero_overlap_witness :
    0 ≤ score_relevance "zebra" ⟨"fix bug", "bugfix", ["src/auth.py"]⟩ ∧
    score_relevance "zebra" ⟨"fix bug", "bugfix", ["src/auth.py"]⟩ = 0 :=
  ⟨(c2_score_nonneg_zero_overlap "zebra" ⟨"fix bug", "bugfix", ["src/auth.py"]⟩).1,
   (c2_score_nonneg_zero_overlap "zebra" ⟨"fix bug", "bugfix", ["src/auth.py"]⟩).2
     (by decide)⟩

/-! ## Claim C3: the categorizer as a first-match over message tokens

The code tests each keyword as a substring of the whole lowercased message.
Every keyword is nonempty and contains no whitespace, so a keyword occurs in
the message exactly when it occurs inside one of the whitespace tokens of
the message; the lemmas below establish that bridge. -/

/-- A list of characters is a whitespace boundary when it is empty or starts
with a whitespace character: no whitespace-free occurrence can cross into it
from the left. -/
def wsBoundary : List Char → Bool
  | [] => true
  | d :: _ => d.isWhitespace

theorem startsWithL_stop (w0 : Char) (w' h2 : List Char)
    (hw0 : w0.isWhitespace = false) (hb : wsBoundary h2 = true) :
    startsWithL (w0 :: w') h2 = false := by
  cases h2 with
  | nil => rfl
  | cons d t =>
    simp only [wsBoundary] at hb
    have hbeq : (w0 == d) = false := by
      cases hx : w0 == d with
      | false => rfl
      | true =>
        have := eq_of_beq hx
        subst this
        rw [hb] at hw0
        exact absurd hw0 (by simp)
    simp [startsWithL, hbeq]

theorem startsWithL_append : ∀ (w x h2 : List Char),
    (∀ c ∈ w, c.isWhitespace = false) → wsBoundary h2 = true →
    startsWithL w (x ++ h2) = startsWithL w x
  | [], _, _, _, _ => rfl
  | w0 :: w', [], h2, hw, hb => by
    rw [List.nil_append, startsWithL_stop w0 w' h2 (hw w0 (by simp)) hb]
    rfl
  | w0 :: w', x0 :: x', h2, hw, hb => by
    simp only [List.cons_append, startsWithL, List.append_eq]
    rw [startsWithL_append w' x' h2 (fun c hc => hw c (by simp [hc])) hb]

theorem containsL_nil_of_ne (w : List Char) (hne : w ≠ []) : containsL w [] = false := by
  cases w with
  | nil => exact absurd rfl hne
  | cons a as => rfl

theorem containsL_append : ∀ (h1 w h2 : List Char), w ≠ [] →
    (∀ c ∈ w, c.isWhitespace = false) → wsBoundary h2 = true →
    containsL w (h1 ++ h2) = (containsL w h1 || containsL w h2)
  | [], w, h2, hne, _, _ => by
    rw [List.nil_append, containsL_nil_of_ne w hne]
    simp
  | a :: h1', w, h2, hne, hw, hb => by
    have h1 : containsL w ((a :: h1') ++ h2) =
        (startsWithL w ((a :: h1') ++ h2) || containsL w (h1' ++ h2)) := rfl
    have h2' : containsL w (a :: h1') =
        (startsWithL w (a :: h1') || containsL w h1') := rfl
    rw [h1, h2', startsWithL_append w (a :: h1') h2 hw hb,
      containsL_append h1' w h2 hne hw hb, Bool.or_assoc]

theorem wsBoundary_dropWhile : ∀ rest : List Char,
    wsBoundary (rest.dropWhile (fun d => !d.isWhitespace)) = true := by
  intro rest
  induction rest with
  | nil => rfl
  | cons d ds ih =>
    simp only [List.dropWhile]
    cases hd : d.isWhitespace with
    | true => simp [hd, wsBoundary]
    | false => simpa [hd] using ih

theorem containsL_tokenize (w : List Char) (hne : w ≠ [])
    (hw : ∀ c ∈ w, c.isWhitespace = false) :
    ∀ m : List Char, containsL w m = (tokenize m).any (fun t => containsL w t) := by
  have main : ∀ (n : Nat) (m : List Char), m.length ≤ n →
      containsL w m = (tokenize m).any (fun t => containsL w t) := by
    intro n
    induction n with
    | zero =>
      intro m hm
      have hmnil : m = [] := by cases m <;> simp_all
      subst hmnil
      rw [tokenize_nil, containsL_nil_of_ne w hne]
      rfl
    | succ n ih =>
      intro m hm
      cases m with
      | nil =>
        rw [tokenize_nil, containsL_nil_of_ne w hne]
        rfl
      | cons c rest =>
        cases hws : c.isWhitespace with
        | true =>
          rw [tokenize_ws rest hws]
          have hstep : containsL w (c :: rest) =
              (startsWithL w (c :: rest) || containsL w rest) := rfl
          obtain ⟨w0, w', rfl⟩ : ∃ w0 w', w = w0 :: w' := by
            cases w with
            | nil => exact absurd rfl hne
            | cons w0 w' => exact ⟨w0, w', rfl⟩
          rw [hstep, startsWithL_stop w0 w' (c :: rest) (hw w0 (by simp)) (by simpa [wsBoundary])]
          rw [ih rest (by simp at hm; omega)]
          simp
        | false =>
          rw [tokenize_not_ws rest hws]
          rw [List.any_cons]
          have hsplit : c :: rest =
              (c :: rest.takeWhile (fun d => !d.isWhitespace)) ++
                rest.dropWhile (fun d => !d.isWhitespace) := by
            have := List.takeWhile_append_dropWhile (p := fun d => !d.isWhitespace) (l := rest)
            rw [List.cons_append, this]
          rw [hsplit,
            containsL_append _ w _ hne hw (wsBoundary_dropWhile rest),
            ih (rest.dropWhile (fun d => !d.isWhitespace))
              (by have := dropWhile_length_le (fun d => !d.isWhitespace) rest; simp at hm; omega)]
  intro m
  exact main m.length m le_rfl

theorem any_congr_on {α : Type} (l : List α) (p q : α → Bool)
    (h : ∀ a ∈ l, p a = q a) : l.any p = l.any q := by
  induction l with
  | nil => rfl
  | cons a l ih =>
    simp only [List.any_cons]
    rw [h a (by simp), ih (fun b hb => h b (by simp [hb]))]

theorem find?_congr_on {α : Type} (l : List α) (p q : α → Bool)
    (h : ∀ a ∈ l, p a = q a) : l.find? p = l.find? q := by
  induction l with
  | nil => rfl
  | cons a l ih =>
    simp only [List.find?]
    rw [h a (by simp)]
    cases q a with
    | true => rfl
    | false => exact ih (fun b hb => h b (by simp [hb]))

theorem any_map_mk (w : List Char) :
    ∀ l : List (List Char),
      (l.map String.mk).any (fun t => containsL w t.data) = l.any (fun t => containsL w t) := by
  intro l
  induction l with
  | nil => rfl
  | cons t l ih => simp only [List.map, List.any_cons, ih]

theorem strIn_eq_any_token (w m : String) (hne : w.data ≠ [])
    (hw : ∀ c ∈ w.data, c.isWhitespace = false) :
    strIn w m = (tokenizeStr m).any (fun t => strIn w t) := by
  unfold strIn tokenizeStr
  rw [containsL_tokenize w.data hne hw m.data, any_map_mk]

/-- The categorizer as the claim reads: the first category in the fixed
priority order one of whose keywords occurs in a whitespace token of the
lowercased message, with `unknown` when no category matches.  The changed
files play no role. -/
def categorizeByTokens (message : String) : String :=
  match categories.find? (fun p =>
      p.2.any (fun word => (tokenizeStr (pyLower message)).any (fun t => strIn word t))) with
  | some p => p.1
  | none => "unknown"

/-- C3: for every message and file list, `categorize_commit` returns the
first category in the fixed priority order whose keyword set matches a
token of the lowercased message, `unknown` when none matches, and the file
list never influences the result (so in particular the function is pure and
call-order independent). -/
theorem c3_categorizer_first_match (message : String) (files : List String) :
    categorize_commit message files = categorizeByTokens message := by
  unfold categorize_commit categorizeByTokens
  have hk : ∀ p ∈ categories, ∀ w ∈ p.2,
      w.data ≠ [] ∧ ∀ c ∈ w.data, c.isWhitespace = false := by decide
  have hpred : ∀ p ∈ categories,
      (p.2.any (fun word => strIn word (pyLower message))) =
      (p.2.any (fun word => (tokenizeStr (pyLower message)).any (fun t => strIn word t))) := by
    intro p hp
    apply any_congr_on
    intro w hw
    exact strIn_eq_any_token w (pyLower message) (hk p hp w hw).1 (hk p hp w hw).2
  rw [find?_congr_on categories _ _ hpred]

/-! ## Claim C6: the authentication scenario -/

/-- The fixture commit message of end-to-end scenario B. -/
def fixtureMessage : String := "fix: auth token refresh bug"

/-- The claim asserts a relevance score of at least 3 for the query
`authentication` against the fixture commit; the scorer only awards points
when the whole query token occurs inside the commit message, and
`authentication` does not occur in `fix: auth token refresh bug` (only the
shorter `auth` does), so the commit scores 0. -/
theorem c6_authentication_counterexample :
    ¬ (3 ≤ score_relevance "authentication"
        ⟨fixtureMessage, categorize_commit fixtureMessage [], []⟩) := by decide

/-- C6, amended: the fixture commit scores 0 for the query `authentication`
(1 if a changed file path is literally the string `authentication`), never
reaching the claimed 3: no message-keyword match fires because substring
matching goes from query token into message, not the reverse. -/
theorem c6_authentication_amended (fs : List String) :
    score_relevance "authentication"
        ⟨fixtureMessage, categorize_commit fixtureMessage fs, fs⟩ =
      if fs.contains "authentication" then 1 else 0 := by
  have hcat : categorize_commit fixtureMessage fs = "bugfix" := rfl
  rw [hcat, c1_scoring_pipeline_amended]
  have htok : tokenizeStr (pyLower "authentication") = ["authentication"] := by decide
  rw [htok]
  simp only [List.map_cons, List.map_nil, List.sum_cons, List.sum_nil, wordScore]
  have h1 : strIn "authentication" (pyLower fixtureMessage) = false := by decide
  have h2 : strIn "authentication" "bugfix" = false := by decide
  rw [h1, h2]
  cases fs.contains "authentication" <;> simp

/-! ## Claim C4: evidence normalization never throws

The evidence rendering of `QueryInterface.tsx` (lines 166 to 207) accepts
loosely shaped items: commit identity can arrive flat (`hash`,
`commit_hash`) or nested in a `commit` sub-object, and `author`, `date`,
`message`, `description` may each be missing.  The JSX is modelled as a
normalizer producing the canonical evidence shape of the specification;
property accesses on a possibly-undefined `commit` object run in an
exception monad so that freedom from `TypeError` is a theorem, and the
JavaScript truthiness of the empty string is modelled explicitly. -/

/-- The nested `commit` sub-object an evidence item may carry. -/
structure CommitObj where
  hash : Option String
  message : Option String
  author : Option String
  date : Option String
deriving DecidableEq

/-- An evidence item as the JSX reads it.  All fields are optional; `commit`
is a sub-object when present.  `files_changed`, when present, is modelled as
the numeric case of the rendering. -/
structure RawEvidence where
  commit : Option CommitObj
  commit_hash : Option String
  hash : Option String
  message : Option String
  description : Option String
  author : Option String
  date : Option String
  files_changed : Option Nat
deriving DecidableEq

/-- The canonical evidence shape of the specification:
commit reference, human summary, optional author, optional date. -/
structure CanonEvidence where
  commitRef : String
  summary : String
  author : Option String
  date : Option String
deriving DecidableEq

/-- JavaScript truthiness of an optional string: `undefined` and the empty
string are falsy. -/
def jsTruthy : Option String → Bool
  | none => false
  | some s => !(s == "")

/-- JavaScript `x || d` rendered as a string: `x` when truthy, the default
string otherwise. -/
def jsStr (o : Option String) (d : String) : String :=
  match o with
  | some s => if s == "" then d else s
  | none => d

/-- JavaScript `substring(0, 8)`. -/
def take8 (s : String) : String := String.mk (s.data.take 8)

/-- Reading a property of `evidence.commit` without a guard: a `TypeError`
when the commit object is absent. -/
def commitGet (c : Option CommitObj) (f : CommitObj → Option String) :
    Except String (Option String) :=
  match c with
  | none => Except.error "TypeError: cannot read properties of undefined"
  | some co => Except.ok (f co)

/-- The headline of one evidence entry:
`evidence.commit && typeof evidence.commit === "object" ?
  (evidence.commit.hash ? ... : evidence.commit.message || "Commit") :
  (evidence.commit_hash ? ... : evidence.hash ? ... : evidence.message || "Commit")`. -/
def headline (e : RawEvidence) : String :=
  match e.commit with
  | some co =>
    if jsTruthy co.hash then "Commit: " ++ take8 (jsStr co.hash "")
    else jsStr co.message "Commit"
  | none =>
    if jsTruthy e.commit_hash then "Commit: " ++ take8 (jsStr e.commit_hash "")
    else if jsTruthy e.hash then "Commit: " ++ take8 (jsStr e.hash "")
    else jsStr e.message "Commit"

/-- The descriptive line:
`evidence.description || (commit object ? commit.message : evidence.message)
 || (evidence.files_changed ? number-of-files text : the empty string)`. -/
def summaryOf (e : RawEvidence) : String :=
  jsStr e.description
    (jsStr (match e.commit with
            | some co => co.message
            | none => e.message)
      (match e.files_changed with
       | some n => if n == 0 then "" else toString n ++ " files changed"
       | none => ""))

/-- The author block: guarded by
`evidence.author || (evidence.commit && evidence.commit.author)` and showing
`String(evidence.author || evidence.commit.author)` — the inner expression
reads `evidence.commit.author` without the `evidence.commit &&` guard. -/
def authorOf (e : RawEvidence) : Except String (Option String) :=
  if jsTruthy e.author || (e.commit.isSome && jsTruthy (e.commit.bind CommitObj.author)) then
    if jsTruthy e.author then Except.ok e.author
    else commitGet e.commit CommitObj.author
  else Except.ok none

/-- The date block: guarded by
`evidence.date || (evidence.commit && evidence.commit.date)` and rendering
`new Date(evidence.date || evidence.commit.date)`; the canonical date is
the raw string handed to the `Date` constructor. -/
def dateOf (e : RawEvidence) : Except String (Option String) :=
  if jsTruthy e.date || (e.commit.isSome && jsTruthy (e.commit.bind CommitObj.date)) then
    if jsTruthy e.date then Except.ok e.date
    else commitGet e.commit CommitObj.date
  else Except.ok none

/-- The whole per-item normalization: the headline and description lines are
total, and a `TypeError` raised while resolving the author or date blocks
would propagate. -/
def normalizeEvidence (e : RawEvidence) : Except String CanonEvidence :=
  match authorOf e, dateOf e with
  | Except.ok a, Except.ok d =>
    Except.ok { commitRef := headline e, summary := summaryOf e, author := a, date := d }
  | Except.error msg, _ => Except.error msg
  | _, Except.error msg => Except.error msg

/-- The author carried by a nested commit object, if any. -/
def nestedAuthor (e : RawEvidence) : Option String := e.commit.bind CommitObj.author

/-- The date carried by a nested commit object, if any. -/
def nestedDate (e : RawEvidence) : Option String := e.commit.bind CommitObj.date

/-- C4: every evidence item normalizes without an exception into a canonical
item; when neither a flat nor a nested author (resp. date) is supplied, the
canonical author (resp. date) is absent; and commit identity supplied as a
truthy flat `commit_hash` or nested `commit.hash` resolves into the
abbreviated commit reference. -/
theorem c4_evidence_normalization_total (e : RawEvidence) :
    ∃ c : CanonEvidence, normalizeEvidence e = Except.ok c ∧
      (e.author = none → nestedAuthor e = none → c.author = none) ∧
      (e.date = none → nestedDate e = none → c.date = none) ∧
      (∀ h : String, e.commit = none → e.commit_hash = some h → h ≠ "" →
        c.commitRef = "Commit: " ++ take8 h) ∧
      (∀ co : CommitObj, ∀ h : String, e.commit = some co → co.hash = some h → h ≠ "" →
        c.commitRef = "Commit: " ++ take8 h) := by
  have hauthor : ∃ a, authorOf e = Except.ok a ∧
      (e.author = none → nestedAuthor e = none → a = none) := by
    unfold authorOf nestedAuthor
    cases ha : jsTruthy e.author with
    | true =>
      refine ⟨e.author, ?_, ?_⟩
      · simp [ha]
      · intro hnone _
        rw [hnone] at ha
        simp [jsTruthy] at ha
    | false =>
      cases hc : e.commit with
      | none => exact ⟨none, by simp [ha, hc], fun _ _ => rfl⟩
      | some co =>
        cases hca : jsTruthy (some co |>.bind CommitObj.author) with
        | false => exact ⟨none, by simp [ha, hc, hca], fun _ _ => rfl⟩
        | true =>
          refine ⟨co.author, ?_, ?_⟩
          · simp [ha, hc, hca, commitGet]
          · intro _ hnested
            simp only [Option.bind] at hnested hca
            rw [hnested] at hca
            simp [jsTruthy] at hca
  have hdate : ∃ d, dateOf e = Except.ok d ∧
      (e.date = none → nestedDate e = none → d = none) := by
    unfold dateOf nestedDate
    cases ha : jsTruthy e.date with
    | true =>
      refine ⟨e.date, ?_, ?_⟩
      · simp [ha]
      · intro hnone _
        rw [hnone] at ha
        simp [jsTruthy] at ha
    | false =>
      cases hc : e.commit with
      | none => exact ⟨none, by simp [ha, hc], fun _ _ => rfl⟩
      | some co =>
        cases hca : jsTruthy (some co |>.bind CommitObj.date) with
        | false => exact ⟨none, by simp [ha, hc, hca], fun _ _ => rfl⟩
        | true =>
          refine ⟨co.date, ?_, ?_⟩
          · simp [ha, hc, hca, commitGet]
          · intro _ hnested
            simp only [Option.bind] at hnested hca
            rw [hnested] at hca
            simp [jsTruthy] at hca
  obtain ⟨a, haok, habs⟩ := hauthor
  obtain ⟨d, hdok, hdabs⟩ := hdate
  refine ⟨{ commitRef := headline e, summary := summaryOf e, author := a, date := d }, ?_,
    habs, hdabs, ?_, ?_⟩
  · unfold normalizeEvidence
    rw [haok, hdok]
  · intro h hcn hch hne
    simp only [headline, hcn, hch]
    have : jsTruthy (some h) = true := by simp [jsTruthy, hne]
    simp [this, jsStr, hne]
  · intro co h hcs hch hne
    simp only [headline, hcs, hch]
    have : jsTruthy (some h) = true := by simp [jsTruthy, hne]
    simp [this, jsStr, hne]

/-- The all-absent evidence item. -/
def emptyEvidence : RawEvidence :=
  { commit := none, commit_hash := none, hash := none, message := none,
    description := none, author := none, date := none, files_changed := none }

/-- Concrete instance of C4 at the fully degenerate item: normalization
succeeds and both optional fields are absent. -/
theorem c4_evidence_normalization_witness :
    ∃ c : CanonEvidence, normalizeEvidence emptyEvidence = Except.ok c ∧
      (emptyEvidence.author = none → nestedAuthor emptyEvidence = none → c.author = none) ∧
      (emptyEvidence.date = none → nestedDate emptyEvidence = none → c.date = none) ∧
      (∀ h : String, emptyEvidence.commit = none → emptyEvidence.commit_hash = some h → h ≠ "" →
        c.commitRef = "Commit: " ++ take8 h) ∧
      (∀ co : CommitObj, ∀ h : String,
        emptyEvidence.commit = some co → co.hash = some h → h ≠ "" →
        c.commitRef = "Commit: " ++ take8 h) :=
  c4_evidence_normalization_total emptyEvidence

/-! ## Claim C5: failed query submissions degrade to an apology result

`handleSubmit` of `QueryInterface.tsx`: an empty (whitespace-only) query is
ignored; otherwise the query box is cleared, the upstream call is made, a
successful response is prepended to the result list, and a failure is caught
and replaced by a canned apologetic `QueryResult` with empty evidence,
timeline and insights; `finally` resets the loading flag. -/

/-- A timeline entry of a query result (shape used by the rendering). -/
structure TimelineEvent where
  event : Option String
  description : Option String
  message : Option String
  date : Option String
deriving DecidableEq

/-- The body of a query response. -/
structure QueryResultBody where
  answer : String
  evidence : List RawEvidence
  timeline : List TimelineEvent
  insights : List String
deriving DecidableEq

/-- A query/result pair as stored in the result list of the component. -/
structure QueryResult where
  query : String
  result : QueryResultBody
deriving DecidableEq

/-- The canned apology answer of the catch branch. -/
def apologyAnswer : String :=
  "Sorry, I encountered an error processing your question. Please try again."

/-- JavaScript `String.prototype.trim`. -/
def jsTrim (s : String) : String :=
  String.mk (((s.data.dropWhile Char.isWhitespace).reverse.dropWhile Char.isWhitespace).reverse)

/-- The component state touched by `handleSubmit`. -/
structure QIState where
  query : String
  isLoading : Bool
  results : List QueryResult
deriving DecidableEq

/-- Embedding of `handleSubmit`, parameterized by the outcome of the
`axios.post(/api/query, ...)` call. -/
def handleSubmit (s : QIState) (upstream : Except String QueryResult) : QIState :=
  if jsTrim s.query == "" then s
  else
    let currentQuery := s.query
    let s1 : QIState := { s with isLoading := true, query := "" }
    let s2 : QIState :=
      match upstream with
      | Except.ok response => { s1 with results := response :: s1.results }
      | Except.error _ =>
        { s1 with results :=
            { query := currentQuery,
              result := { answer := apologyAnswer, evidence := [], timeline := [],
                          insights := [] } } :: s1.results }
    { s2 with isLoading := false }

/-- C5: when the upstream call fails, the caller receives (at the head of
the result list) a `QueryResult` carrying the original query text, the
apology answer and empty evidence, timeline and insights; no failure value
escapes (the transition is total and the loading flag is reset). -/
theorem c5_query_failure_apology (s : QIState) (err : String)
    (h : jsTrim s.query ≠ "") :
    (handleSubmit s (Except.error err)).results =
      { query := s.query,
        result := { answer := apologyAnswer, evidence := [], timeline := [],
                    insights := [] } } :: s.results ∧
    (handleSubmit s (Except.error err)).isLoading = false := by
  have hcond : (jsTrim s.query == "") = false := by
    cases hb : jsTrim s.query == "" with
    | false => rfl
    | true => exact absurd (by simpa using hb) h
  unfold handleSubmit
  rw [hcond]
  simp

/-- Concrete instance of C5: a failing upstream call on a non-blank query
yields exactly the apology record on top of the previous results. -/
theorem c5_query_failure_apology_witness :
    (handleSubmit ⟨"why flask?", false, []⟩ (Except.error "network down")).results =
      [{ query := "why flask?",
         result := { answer := apologyAnswer, evidence := [], timeline := [],
                     insights := [] } }] ∧
    (handleSubmit ⟨"why flask?", false, []⟩ (Except.error "network down")).isLoading = false :=
  c5_query_failure_apology ⟨"why flask?", false, []⟩ "network down" (by decide)

/-! ## Claims C7 and C8: the polling loops

`pollForCompletion` in `RepositoryInput.tsx` re-schedules a status read
exactly when the observed status is neither `completed` nor `failed`, and
stops by delivering the data or the error message at the first terminal
status (a fetch error also stops the loop with a generic error).
`handleExampleAnalysis` in the application page runs an interval-based loop
with the same terminal behaviour, plus a five-minute `setTimeout` intended
to fail the job locally; that callback tests the closure-captured
`analysis.status`, which is the state of the render that created the
handler. -/

/-- A status response from `GET /api/analysis/{repoId}`. -/
structure StatusResponse where
  status : String
  error_message : Option String
  data : Option String
deriving DecidableEq

/-- The action the polling callback takes after one status read. -/
inductive PollOutcome where
  | again : PollOutcome
  | complete : StatusResponse → PollOutcome
  | fail : String → PollOutcome
deriving DecidableEq

/-- Embedding of one iteration of `checkStatus` inside `pollForCompletion`:
a fetch failure reports a generic error; `completed` delivers the response;
`failed` delivers the error message (with a default when it is absent or
empty); any other status schedules another read. -/
def checkStatus (resp : Except String StatusResponse) : PollOutcome :=
  match resp with
  | Except.error _ => PollOutcome.fail "Failed to check analysis status"
  | Except.ok r =>
    if r.status == "completed" then PollOutcome.complete r
    else if r.status == "failed" then PollOutcome.fail (jsStr r.error_message "Analysis failed")
    else PollOutcome.again

/-- Run the polling loop over the successive successfully fetched status
responses; `none` means the loop is still waiting for the next read. -/
def runPoll : List StatusResponse → Option PollOutcome
  | [] => none
  | r :: rest =>
    let o := checkStatus (Except.ok r)
    if o = PollOutcome.again then runPoll rest else some o

/-- A status response is terminal when it reports `completed` or `failed`. -/
def isTerminalResp (r : StatusResponse) : Bool :=
  r.status == "completed" || r.status == "failed"

/-- What the loop delivers at a terminal response. -/
def outcomeOf (r : StatusResponse) : PollOutcome :=
  if r.status == "completed" then PollOutcome.complete r
  else PollOutcome.fail (jsStr r.error_message "Analysis failed")

theorem checkStatus_ok (r : StatusResponse) :
    checkStatus (Except.ok r) = if isTerminalResp r then outcomeOf r else PollOutcome.again := by
  unfold checkStatus isTerminalResp outcomeOf
  cases hc : r.status == "completed" <;> cases hf : r.status == "failed" <;> simp [hc, hf]

/-- C8: one polling step schedules another status read exactly when the
observed status is neither `completed` nor `failed`; a `completed` response
stops the loop delivering the response (with its analysis data), a `failed`
response stops it delivering the error message, and over any run the loop
ends exactly at the first observed terminal response. -/
theorem c8_polling_terminal (resps : List StatusResponse) (r : StatusResponse) :
    (checkStatus (Except.ok r) = PollOutcome.again ↔
      (r.status ≠ "completed" ∧ r.status ≠ "failed")) ∧
    (r.status = "completed" → checkStatus (Except.ok r) = PollOutcome.complete r) ∧
    (r.status = "failed" →
      checkStatus (Except.ok r) = PollOutcome.fail (jsStr r.error_message "Analysis failed")) ∧
    runPoll resps = (resps.find? isTerminalResp).map outcomeOf := by
  refine ⟨?_, ?_, ?_, ?_⟩
  · rw [checkStatus_ok]
    unfold isTerminalResp outcomeOf
    cases hc : r.status == "completed" with
    | true =>
      have h1 : r.status = "completed" := eq_of_beq hc
      simp [hc, h1]
    | false =>
      cases hf : r.status == "failed" with
      | true =>
        have h1 : r.status = "failed" := eq_of_beq hf
        simp [hc, hf, h1]
      | false =>
        have h1 : r.status ≠ "completed" := by simpa using hc
        have h2 : r.status ≠ "failed" := by simpa using hf
        simp [hc, hf, h1, h2]
  · intro hc
    rw [checkStatus_ok]
    have ht : isTerminalResp r = true := by simp [isTerminalResp, hc]
    rw [if_pos ht]
    unfold outcomeOf
    rw [if_pos (by simp [hc])]
  · intro hf
    rw [checkStatus_ok]
    have ht : isTerminalResp r = true := by simp [isTerminalResp, hf]
    rw [if_pos ht]
    unfold outcomeOf
    cases hc : r.status == "completed" with
    | true =>
      have := eq_of_beq hc
      rw [hf] at this
      exact absurd this (by decide)
    | false => rw [if_neg (by simp [hc])]
  · induction resps with
    | nil => rfl
    | cons q rest ih =>
      have hno : outcomeOf q ≠ PollOutcome.again := by
        unfold outcomeOf
        cases hc : q.status == "completed" <;> simp [hc]
      show (let o := checkStatus (Except.ok q);
        if o = PollOutcome.again then runPoll rest else some o) = _
      rw [checkStatus_ok]
      cases ht : isTerminalResp q with
      | true => simp [List.find?, ht, hno]
      | false => simp [List.find?, ht, ih]

/-- Concrete instance of C8: three processing reads followed by a completed
response deliver exactly that response; the step predicate and terminal
behaviours hold at the processing read. -/
theorem c8_polling_terminal_witness :
    (checkStatus (Except.ok ⟨"processing", none, none⟩) = PollOutcome.again ↔
      ((⟨"processing", none, none⟩ : StatusResponse).status ≠ "completed" ∧
       (⟨"processing", none, none⟩ : StatusResponse).status ≠ "failed")) ∧
    ((⟨"processing", none, none⟩ : StatusResponse).status = "completed" →
      checkStatus (Except.ok ⟨"processing", none, none⟩) =
        PollOutcome.complete ⟨"processing", none, none⟩) ∧
    ((⟨"processing", none, none⟩ : StatusResponse).status = "failed" →
      checkStatus (Except.ok ⟨"processing", none, none⟩) =
        PollOutcome.fail (jsStr (⟨"processing", none, none⟩ : StatusResponse).error_message
          "Analysis failed")) ∧
    runPoll [⟨"processing", none, none⟩, ⟨"processing", none, none⟩,
        ⟨"completed", none, some "analysis"⟩, ⟨"failed", some "late", none⟩] =
      (([⟨"processing", none, none⟩, ⟨"processing", none, none⟩,
        ⟨"completed", none, some "analysis"⟩,
        ⟨"failed", some "late", none⟩].find? isTerminalResp).map outcomeOf) :=
  c8_polling_terminal _ ⟨"processing", none, none⟩

/-! ## Claim C7: the five-minute client timeout

`handleExampleAnalysis` schedules

  setTimeout(() => \x7b
    clearInterval(pollInterval);
    if (analysis.status === "processing") \x7b
      handleAnalysisError("Analysis timed out");
    \x7d
  \x7d, 300000);

The identifier `analysis` is the `useState` value closed over by the render
that created the handler.  `RepositoryExamples` (the only caller of
`handleExampleAnalysis`) is rendered exclusively while
`analysis.status === "idle"`, so the callback always reads the captured
idle state, not the live one.  The embedding therefore takes both the
captured and the current state. -/

/-- The page-level analysis state of the application component. -/
structure AnalysisState where
  repoId : String
  status : String
  data : Option String
  error : Option String
  repoTitle : Option String
deriving DecidableEq

/-- `handleAnalysisError`: flip the state to `error` with a message. -/
def handleAnalysisError (errorMsg : String) (prev : AnalysisState) : AnalysisState :=
  { prev with status := "error", error := some errorMsg }

/-- The initial (idle) state, in which the examples gallery is rendered. -/
def initialAnalysisState : AnalysisState :=
  { repoId := "", status := "idle", data := none, error := none, repoTitle := none }

/-- The five-minute timeout callback: it always clears the polling interval
(first component `true`), and updates the live state only when the
closure-captured status reads `processing`. -/
def exampleAnalysisTimeout (captured current : AnalysisState) : Bool × AnalysisState :=
  (true, if captured.status == "processing" then handleAnalysisError "Analysis timed out" current
         else current)

/-- C7 evaluated on the code: when the five-minute timeout fires while the
live job is still `processing`, the callback does clear the polling
interval, but — because the captured state is the idle one — it leaves the
live state untouched: no `Analysis timed out` error is ever reported, contra
the claim (and the intent evident in the code). -/
theorem c7_timeout_never_reports (current : AnalysisState)
    (h : current.status = "processing") :
    (exampleAnalysisTimeout initialAnalysisState current).1 = true ∧
    (exampleAnalysisTimeout initialAnalysisState current).2 = current ∧
    (exampleAnalysisTimeout initialAnalysisState current).2.status ≠ "error" := by
  refine ⟨rfl, ?_, ?_⟩
  · unfold exampleAnalysisTimeout
    rw [if_neg (by decide)]
  · unfold exampleAnalysisTimeout
    rw [if_neg (by decide)]
    rw [h]
    decide

/-- A live state five minutes into an example analysis. -/
def stuckProcessingState : AnalysisState :=
  { repoId := "abc123", status := "processing", data := none, error := none,
    repoTitle := some "Web Framework Evolution" }

/-- Concrete instance of C7: the timeout callback fires against a live
processing job and changes nothing besides stopping the polling. -/
theorem c7_timeout_never_reports_witness :
    (exampleAnalysisTimeout initialAnalysisState stuckProcessingState).1 = true ∧
    (exampleAnalysisTimeout initialAnalysisState stuckProcessingState).2 =
      stuckProcessingState ∧
    (exampleAnalysisTimeout initialAnalysisState stuckProcessingState).2.status ≠ "error" :=
  c7_timeout_never_reports stuckProcessingState rfl

/-! ## Claim C9: the suggested-query lookup

`getRepoSpecificQueries` in `QueryInterface.tsx` searches the static table
`repositoryExamples` for an entry whose title contains, or is contained in,
the given repository title (both lowercased), returning its sample queries;
with no title (or the falsy empty title) or no matching entry the component
falls back to the fixed generic six-question list. -/

/-- An entry of `frontend/src/data/repositoryExamples.ts`. -/
structure RepositoryExample where
  id : String
  title : String
  url : String
  description : String
  interestingPoints : List String
  sampleQueries : List String
  estimatedTime : String
  difficulty : String
  tags : List String
deriving DecidableEq

/-- The full static table of `repositoryExamples.ts`. -/
def repositoryExamples : List RepositoryExample :=
  [{ id := "express",
     title := "Web Framework Evolution",
     url := "https://github.com/expressjs/express",
     description := "See how middleware patterns emerged and became the Node.js standard. Track security features, performance optimizations, and API design decisions that influenced countless other frameworks.",
     interestingPoints :=
       ["Middleware architecture emergence",
        "Security feature additions over time",
        "Performance optimization commits",
        "Breaking change management"],
     sampleQueries :=
       ["How did middleware patterns emerge?",
        "When were security features added?",
        "Show me the evolution of routing",
        "What were the major breaking changes?"],
     estimatedTime := "60-90 seconds",
     difficulty := "intermediate",
     tags := ["web-framework", "middleware", "node.js", "api-design"] },
   { id := "prettier",
     title := "Opinionated Tool Design",
     url := "https://github.com/prettier/prettier",
     description := "Explore how an opinionated code formatter made controversial design decisions and stuck to them. Watch the evolution from simple formatter to ecosystem standard.",
     interestingPoints :=
       ["Philosophy vs. flexibility debates in commits",
        "Language support expansion",
        "Performance optimization patterns",
        "Community feedback integration"],
     sampleQueries :=
       ["Show me debates about formatting decisions",
        "How did language support expand?",
        "What were the most controversial changes?",
        "How did performance improve over time?"],
     estimatedTime := "45-75 seconds",
     difficulty := "beginner",
     tags := ["code-formatting", "tooling", "philosophy", "community"] },
   { id := "lodash",
     title := "Utility Library Optimization",
     url := "https://github.com/lodash/lodash",
     description := "Track how a utility library evolved for performance and bundle size. See tree-shaking support, modularization decisions, and the shift toward functional programming patterns.",
     interestingPoints :=
       ["Performance micro-optimizations",
        "Bundle size reduction efforts",
        "Modularization architecture changes",
        "Functional programming adoption"],
     sampleQueries :=
       ["Track performance optimization commits",
        "When did tree-shaking support appear?",
        "How did modularization evolve?",
        "Show bundle size reduction efforts"],
     estimatedTime := "75-120 seconds",
     difficulty := "advanced",
     tags := ["utilities", "performance", "modularization", "functional-programming"] },
   { id := "passport",
     title := "Authentication Strategy Pattern",
     url := "https://github.com/jaredhanson/passport",
     description := "Watch the strategy pattern evolve for authentication. See how a simple idea became the foundation for hundreds of authentication methods across the Node.js ecosystem.",
     interestingPoints :=
       ["Strategy pattern implementation",
        "OAuth evolution support",
        "Security vulnerability fixes",
        "Community strategy contributions"],
     sampleQueries :=
       ["How did the strategy pattern evolve?",
        "Show OAuth implementation timeline",
        "What security vulnerabilities were fixed?",
        "How do community strategies work?"],
     estimatedTime := "30-60 seconds",
     difficulty := "intermediate",
     tags := ["authentication", "strategy-pattern", "oauth", "security"] },
   { id := "joi",
     title := "Schema Validation API Design",
     url := "https://github.com/sideway/joi",
     description := "Explore how a validation library balanced developer experience with powerful features. Track API design decisions, TypeScript adoption, and performance improvements.",
     interestingPoints :=
       ["Fluent API design evolution",
        "TypeScript integration",
        "Performance vs. features trade-offs",
        "Breaking change migration strategies"],
     sampleQueries :=
       ["How did the fluent API develop?",
        "When was TypeScript support added?",
        "Show performance vs features decisions",
        "What were the breaking change strategies?"],
     estimatedTime := "45-75 seconds",
     difficulty := "intermediate",
     tags := ["validation", "api-design", "typescript", "developer-experience"] },
   { id := "moment",
     title := "Design Decisions & Regrets",
     url := "https://github.com/moment/moment",
     description := "A masterclass in software evolution and technical debt. See how early design decisions created long-term challenges, leading to the creation of immutable alternatives like Day.js.",
     interestingPoints :=
       ["Mutability vs. immutability decisions",
        "Bundle size concerns emergence",
        "Internationalization complexity",
        "Deprecation and migration planning"],
     sampleQueries :=
       ["What were the early design decisions?",
        "How did bundle size become a problem?",
        "Show internationalization evolution",
        "Why was the library deprecated?"],
     estimatedTime := "90-150 seconds",
     difficulty := "advanced",
     tags := ["date-time", "technical-debt", "immutability", "deprecation"] }]

/-- The bidirectional case-insensitive containment test of the `find`
predicate. -/
def titleMatches (repoTitle : String) (r : RepositoryExample) : Bool :=
  strIn (pyLower r.title) (pyLower repoTitle) || strIn (pyLower repoTitle) (pyLower r.title)

/-- Embedding of `getRepoSpecificQueries`: `null` without a (truthy) title,
otherwise the sample queries of the first matching table entry, else
`null`. -/
def getRepoSpecificQueries (repoTitle : Option String) : Option (List String) :=
  match repoTitle with
  | none => none
  | some t =>
    if t == "" then none
    else
      match repositoryExamples.find? (fun r => titleMatches t r) with
      | some r => some r.sampleQueries
      | none => none

/-- The generic fallback question list inlined in the component. -/
def genericQuestions : List String :=
  ["How did the authentication system evolve?",
   "What major architectural changes happened?",
   "Why was this framework chosen?",
   "How did the testing strategy develop?",
   "What performance optimizations were made?",
   "How did the API design change over time?"]

/-- `suggestionQueries`: the lookup result, or the generic questions. -/
def suggestionQueries (repoTitle : Option String) : List String :=
  (getRepoSpecificQueries repoTitle).getD genericQuestions

theorem find?_of_exists {α : Type} (l : List α) (p : α → Bool)
    (h : ∃ x ∈ l, p x = true) :
    ∃ x ∈ l, p x = true ∧ l.find? p = some x := by
  induction l with
  | nil => simp at h
  | cons a l ih =>
    cases ha : p a with
    | true =>
      exact ⟨a, by simp, ha, by rw [List.find?_cons_of_pos _ ha]⟩
    | false =>
      obtain ⟨x, hx, hpx⟩ := h
      have hxl : x ∈ l := by
        cases List.mem_cons.mp hx with
        | inl he => rw [he] at hpx; rw [hpx] at ha; exact absurd ha (by simp)
        | inr hm => exact hm
      obtain ⟨y, hy, hpy, hfy⟩ := ih ⟨x, hxl, hpx⟩
      exact ⟨y, by simp [hy], hpy, by rw [List.find?_cons_of_neg _ (by simp [ha]), hfy]⟩

/-- C9: the suggested-query lookup is a pure function of the title over the
static table — with no title the generic six questions are returned; with a
nonempty title matching some entry (case-insensitive containment in either
direction) the sample queries of a matching entry are returned; with a title
matching no entry the generic six questions are returned.  The empty title
is treated as absent by the falsy `!repoTitle` guard. -/
theorem c9_suggested_queries :
    suggestionQueries none = genericQuestions ∧
    (∀ t : String, t ≠ "" → (∃ r ∈ repositoryExamples, titleMatches t r = true) →
      ∃ r ∈ repositoryExamples, titleMatches t r = true ∧
        suggestionQueries (some t) = r.sampleQueries) ∧
    (∀ t : String, (∀ r ∈ repositoryExamples, titleMatches t r = false) →
      suggestionQueries (some t) = genericQuestions) := by
  refine ⟨rfl, ?_, ?_⟩
  · intro t hne hex
    obtain ⟨r, hr, hpr, hfind⟩ := find?_of_exists repositoryExamples (fun r => titleMatches t r) hex
    refine ⟨r, hr, hpr, ?_⟩
    simp only [suggestionQueries, getRepoSpecificQueries]
    have ht : (t == "") = false := by
      cases hb : t == "" with
      | false => rfl
      | true => exact absurd (by simpa using hb) hne
    rw [ht, hfind]
    rfl
  · intro t hall
    simp only [suggestionQueries, getRepoSpecificQueries]
    cases hb : t == "" with
    | true => rfl
    | false =>
      have hfind : repositoryExamples.find? (fun r => titleMatches t r) = none := by
        rw [List.find?_eq_none]
        intro r hr
        simp [hall r hr]
      rw [hfind]
      rfl

/-- Concrete instance of C9: the express example title matches its own table
entry and yields its sample queries, while an unrelated title falls back to
the generic list. -/
theorem c9_suggested_queries_witness :
    (∃ r ∈ repositoryExamples, titleMatches "Web Framework Evolution" r = true ∧
      suggestionQueries (some "Web Framework Evolution") = r.sampleQueries) ∧
    suggestionQueries (some "A Totally Unrelated Project") = genericQuestions :=
  ⟨c9_suggested_queries.2.1 "Web Framework Evolution" (by decide) (by decide),
   c9_suggested_queries.2.2 "A Totally Unrelated Project" (by decide)⟩

/-! ## Claim C10: the commit activity timeline

`prepareCommitTimelineData` in `AnalysisResults.tsx` buckets commits by the
string key `${year}-${month padded to two digits}` in a plain object
(insertion-ordered), sorts the entries with `localeCompare` (code-point
comparison on these keys) and keeps the last twelve with `slice(-12)`.
Commits are modelled by their parsed (year, month) pair — the claim is
restricted to parseable dates, and `getFullYear`/`getMonth` are exactly
that projection. -/

/-- `String(month).padStart(2, "0")`. -/
def pad2 (n : Nat) : String := if n < 10 then "0" ++ toString n else toString n

/-- The month key template literal. -/
def monthKey (ym : Nat × Nat) : String := toString ym.1 ++ "-" ++ pad2 ym.2

/-- One step of the bucketing loop: increment the entry of `k`, or append a
fresh entry at the end (JavaScript object property order is insertion
order for these keys). -/
def bump : List (String × Nat) → String → List (String × Nat)
  | [], k => [(k, 1)]
  | (k', c) :: rest, k =>
    if k' == k then (k', c + 1) :: rest else (k', c) :: bump rest k

/-- The `monthlyCommits` object built by the `forEach` loop, as an ordered
association list. -/
def buildCounts (keys : List String) : List (String × Nat) := keys.foldl bump []

/-- `localeCompare` on these digit-and-hyphen keys: code-point lexicographic
comparison. -/
def lexLe : List Char → List Char → Bool
  | [], _ => true
  | _ :: _, [] => false
  | a :: as, b :: bs =>
    if a.toNat < b.toNat then true
    else if b.toNat < a.toNat then false
    else lexLe as bs

/-- The comparator handed to `.sort(([a], [b]) => a.localeCompare(b))`. -/
def entryLe (a b : String × Nat) : Prop := lexLe a.1.data b.1.data = true

instance : DecidableRel entryLe :=
  fun a b => instDecidableEqBool (lexLe a.1.data b.1.data) true

theorem lexLe_total : ∀ a b : List Char, lexLe a b = true ∨ lexLe b a = true
  | [], _ => Or.inl rfl
  | _ :: _, [] => Or.inr rfl
  | a :: as, b :: bs => by
    unfold lexLe
    rcases Nat.lt_trichotomy a.toNat b.toNat with h | h | h
    · left
      simp [h]
    · have h1 : ¬ a.toNat < b.toNat := by omega
      have h2 : ¬ b.toNat < a.toNat := by omega
      rcases lexLe_total as bs with ih | ih
      · left
        simp [h1, h2, ih]
      · right
        simp [h1, h2, ih]
    · right
      simp [h]

theorem lexLe_trans : ∀ a b c : List Char,
    lexLe a b = true → lexLe b c = true → lexLe a c = true
  | [], _, _ => fun _ _ => rfl
  | _ :: _, [], _ => fun h _ => by simp [lexLe] at h
  | _ :: _, _ :: _, [] => fun _ h => by simp [lexLe] at h
  | a :: as, b :: bs, c :: cs => fun h1 h2 => by
    unfold lexLe at h1 h2 ⊢
    rcases Nat.lt_trichotomy a.toNat b.toNat with hab | hab | hab
    · rcases Nat.lt_trichotomy b.toNat c.toNat with hbc | hbc | hbc
      · simp [show a.toNat < c.toNat by omega]
      · simp [show a.toNat < c.toNat by omega]
      · simp [show ¬ b.toNat < c.toNat by omega, show c.toNat < b.toNat by omega] at h2
    · rcases Nat.lt_trichotomy b.toNat c.toNat with hbc | hbc | hbc
      · simp [show a.toNat < c.toNat by omega]
      · have hna : ¬ a.toNat < b.toNat := by omega
        have hnb : ¬ b.toNat < a.toNat := by omega
        have hnc : ¬ b.toNat < c.toNat := by omega
        have hnd : ¬ c.toNat < b.toNat := by omega
        simp only [if_neg hna, if_neg hnb] at h1
        simp only [if_neg hnc, if_neg hnd] at h2
        have := lexLe_trans as bs cs h1 h2
        simp [show ¬ a.toNat < c.toNat by omega, show ¬ c.toNat < a.toNat by omega, this]
      · simp [show ¬ b.toNat < c.toNat by omega, show c.toNat < b.toNat by omega] at h2
    · simp [show ¬ a.toNat < b.toNat by omega, show b.toNat < a.toNat by omega] at h1

instance : IsTotal (String × Nat) entryLe :=
  ⟨fun a b => lexLe_total a.1.data b.1.data⟩

instance : IsTrans (String × Nat) entryLe :=
  ⟨fun a b c => lexLe_trans a.1.data b.1.data c.1.data⟩

/-- `slice(-12)`. -/
def sliceLast12 {α : Type} (l : List α) : List α := l.drop (l.length - 12)

/-- Embedding of `prepareCommitTimelineData`, from the parsed commit dates
to the chart rows (month key, commit count). -/
def prepareCommitTimelineData (commits : List (Nat × Nat)) : List (String × Nat) :=
  sliceLast12 (List.insertionSort entryLe (buildCounts (commits.map monthKey)))

/-- Chronological order on parsed months. -/
def monthLt (a b : Nat × Nat) : Prop := a.1 < b.1 ∨ (a.1 = b.1 ∧ a.2 < b.2)

instance (a b : Nat × Nat) : Decidable (monthLt a b) :=
  inferInstanceAs (Decidable (a.1 < b.1 ∨ (a.1 = b.1 ∧ a.2 < b.2)))

/-- Thirteen distinct months: December of year 999 and the twelve months of
year 1000. -/
def cexCommits : List (Nat × Nat) := (999, 12) :: (List.range 12).map (fun i => (1000, i + 1))

/-- The claim restricts the output to the most recent twelve months present;
with thirteen distinct months spanning a year-digit-count change, the
lexicographic key sort ranks `999-12` above every `1000-xx` key, so the
output keeps the chronologically oldest month and drops January 1000 even
though it is more recent. -/
theorem c10_timeline_counterexample :
    (monthKey (999, 12), 1) ∈ prepareCommitTimelineData cexCommits ∧
    ¬ ((monthKey (1000, 1), 1) ∈ prepareCommitTimelineData cexCommits) ∧
    monthKey (1000, 1) ∈ cexCommits.map monthKey ∧
    monthLt (999, 12) (1000, 1) := by decide

/-! ### Properties of the bucketing loop -/

theorem bump_cons_eq (k' : String) (c : Nat) (rest : List (String × Nat)) (k : String)
    (h : (k' == k) = true) : bump ((k', c) :: rest) k = (k', c + 1) :: rest := by
  show (if k' == k then (k', c + 1) :: rest else (k', c) :: bump rest k) = _
  simp [h]

theorem bump_cons_ne (k' : String) (c : Nat) (rest : List (String × Nat)) (k : String)
    (h : (k' == k) = false) : bump ((k', c) :: rest) k = (k', c) :: bump rest k := by
  show (if k' == k then (k', c + 1) :: rest else (k', c) :: bump rest k) = _
  simp [h]

theorem bump_keys (acc : List (String × Nat)) (k key : String) :
    key ∈ (bump acc k).map Prod.fst ↔ (key ∈ acc.map Prod.fst ∨ key = k) := by
  induction acc with
  | nil => simp [bump]
  | cons p rest ih =>
    obtain ⟨k', c⟩ := p
    cases hk : k' == k with
    | true =>
      have he : k' = k := eq_of_beq hk
      subst he
      rw [bump_cons_eq _ _ _ _ hk]
      simp
      tauto
    | false =>
      rw [bump_cons_ne _ _ _ _ hk]
      simp [ih]
      tauto

theorem bump_keys_nodup (acc : List (String × Nat)) (k : String)
    (h : (acc.map Prod.fst).Nodup) : ((bump acc k).map Prod.fst).Nodup := by
  induction acc with
  | nil => simp [bump]
  | cons p rest ih =>
    obtain ⟨k', c⟩ := p
    cases hk : k' == k with
    | true =>
      rw [bump_cons_eq _ _ _ _ hk]
      simpa using h
    | false =>
      rw [bump_cons_ne _ _ _ _ hk]
      simp only [List.map_cons, List.nodup_cons] at h ⊢
      refine ⟨?_, ih h.2⟩
      rw [bump_keys]
      push_neg
      exact ⟨h.1, by simpa using hk⟩

/-- The count the `monthlyCommits` object holds under key `k` (0 when the
key is absent). -/
def getCount (l : List (String × Nat)) (k : String) : Nat :=
  match l.find? (fun p => p.1 == k) with
  | some p => p.2
  | none => 0

theorem getCount_cons_pos (q : String × Nat) (l : List (String × Nat)) (k : String)
    (h : (q.1 == k) = true) : getCount (q :: l) k = q.2 := by
  unfold getCount
  rw [List.find?_cons_of_pos (p := fun r => r.1 == k) l h]

theorem getCount_cons_neg (q : String × Nat) (l : List (String × Nat)) (k : String)
    (h : (q.1 == k) = false) : getCount (q :: l) k = getCount l k := by
  unfold getCount
  rw [List.find?_cons_of_neg (p := fun r => r.1 == k) l (by simp [h])]

theorem getCount_bump_same (acc : List (String × Nat)) (k : String) :
    getCount (bump acc k) k = getCount acc k + 1 := by
  induction acc with
  | nil => simp [bump, getCount, List.find?]
  | cons p rest ih =>
    obtain ⟨k', c⟩ := p
    cases hk : k' == k with
    | true =>
      rw [bump_cons_eq _ _ _ _ hk, getCount_cons_pos _ _ _ hk, getCount_cons_pos _ _ _ hk]
    | false =>
      rw [bump_cons_ne _ _ _ _ hk, getCount_cons_neg _ _ _ hk, getCount_cons_neg _ _ _ hk]
      exact ih

theorem getCount_bump_other (acc : List (String × Nat)) (k k0 : String)
    (h : k ≠ k0) : getCount (bump acc k0) k = getCount acc k := by
  induction acc with
  | nil =>
    have hne : (k0 == k) = false := by
      cases hx : k0 == k with
      | false => rfl
      | true => exact absurd (eq_of_beq hx).symm h
    simp [bump, getCount, List.find?, hne]
  | cons p rest ih =>
    obtain ⟨k', c⟩ := p
    cases hk : k' == k0 with
    | true =>
      have he : k' = k0 := eq_of_beq hk
      have hne : (k' == k) = false := by
        cases hx : k' == k with
        | false => rfl
        | true => exact absurd ((eq_of_beq hx).symm.trans he) h
      rw [bump_cons_eq _ _ _ _ hk, getCount_cons_neg _ _ _ hne, getCount_cons_neg _ _ _ hne]
    | false =>
      cases hx : k' == k with
      | true =>
        rw [bump_cons_ne _ _ _ _ hk, getCount_cons_pos _ _ _ hx, getCount_cons_pos _ _ _ hx]
      | false =>
        rw [bump_cons_ne _ _ _ _ hk, getCount_cons_neg _ _ _ hx, getCount_cons_neg _ _ _ hx]
        exact ih

theorem getCount_foldl (ks : List String) :
    ∀ (acc : List (String × Nat)) (k : String),
      getCount (ks.foldl bump acc) k = getCount acc k + ks.count k := by
  induction ks with
  | nil => intro acc k; simp [List.count]
  | cons k0 ks ih =>
    intro acc k
    simp only [List.foldl]
    rw [ih (bump acc k0) k]
    by_cases hk : k = k0
    · subst hk
      rw [getCount_bump_same, List.count_cons_self]
      omega
    · rw [getCount_bump_other acc k k0 hk, List.count_cons_of_ne hk]

theorem foldl_bump_keys (ks : List String) :
    ∀ (acc : List (String × Nat)) (key : String),
      key ∈ (ks.foldl bump acc).map Prod.fst ↔ (key ∈ acc.map Prod.fst ∨ key ∈ ks) := by
  induction ks with
  | nil => intro acc key; simp
  | cons k0 ks ih =>
    intro acc key
    simp only [List.foldl]
    rw [ih (bump acc k0) key, bump_keys]
    simp [List.mem_cons]
    tauto

theorem foldl_bump_nodup (ks : List String) :
    ∀ acc : List (String × Nat), (acc.map Prod.fst).Nodup →
      ((ks.foldl bump acc).map Prod.fst).Nodup := by
  induction ks with
  | nil => intro acc h; exact h
  | cons k0 ks ih =>
    intro acc h
    exact ih (bump acc k0) (bump_keys_nodup acc k0 h)

theorem find?_eq_of_mem_nodup (l : List (String × Nat)) (p : String × Nat)
    (hnd : (l.map Prod.fst).Nodup) (hp : p ∈ l) :
    l.find? (fun q => q.1 == p.1) = some p := by
  induction l with
  | nil => simp at hp
  | cons q rest ih =>
    simp only [List.map_cons, List.nodup_cons] at hnd
    cases List.mem_cons.mp hp with
    | inl he =>
      subst he
      rw [List.find?_cons_of_pos _ (by simp)]
    | inr hm =>
      have hne : q.1 ≠ p.1 := by
        intro he
        exact hnd.1 (he ▸ List.mem_map_of_mem Prod.fst hm)
      rw [List.find?_cons_of_neg _ (by simp [hne])]
      exact ih hnd.2 hm

/-- C10, amended: the timeline preparation returns at most 12 rows — exactly
min 12 (number of distinct month keys) — with pairwise distinct month keys,
ordered ascending under the code-point comparison of the keys; each row
counts exactly the input commits of its month, the key of each row is a month
present in the input, and the months left out are precisely the
lexicographically smaller keys (which are the chronologically older months
only when all years have equally many digits, as the counterexample
shows). -/
theorem c10_timeline_amended (commits : List (Nat × Nat)) :
    (prepareCommitTimelineData commits).length ≤ 12 ∧
    (prepareCommitTimelineData commits).length =
      min 12 (buildCounts (commits.map monthKey)).length ∧
    ((prepareCommitTimelineData commits).map Prod.fst).Nodup ∧
    List.Pairwise entryLe (prepareCommitTimelineData commits) ∧
    (∀ p ∈ prepareCommitTimelineData commits,
      p.2 = (commits.map monthKey).count p.1 ∧ p.1 ∈ commits.map monthKey) ∧
    (∀ k ∈ commits.map monthKey,
      k ∉ (prepareCommitTimelineData commits).map Prod.fst →
      ∀ p ∈ prepareCommitTimelineData commits,
        lexLe k.data p.1.data = true ∧ k ≠ p.1) := by
  have hks : prepareCommitTimelineData commits =
      (List.insertionSort entryLe (buildCounts (commits.map monthKey))).drop
        ((List.insertionSort entryLe (buildCounts (commits.map monthKey))).length - 12) := rfl
  have hperm := List.perm_insertionSort entryLe (buildCounts (commits.map monthKey))
  have hsort : List.Pairwise entryLe
      (List.insertionSort entryLe (buildCounts (commits.map monthKey))) :=
    List.sorted_insertionSort entryLe (buildCounts (commits.map monthKey))
  have hlen : (List.insertionSort entryLe (buildCounts (commits.map monthKey))).length =
      (buildCounts (commits.map monthKey)).length := hperm.length_eq
  have hndbc : ((buildCounts (commits.map monthKey)).map Prod.fst).Nodup :=
    foldl_bump_nodup (commits.map monthKey) [] (by simp)
  have hndsrt : ((List.insertionSort entryLe (buildCounts (commits.map monthKey))).map
      Prod.fst).Nodup := ((hperm.map Prod.fst).nodup_iff).mpr hndbc
  refine ⟨?_, ?_, ?_, ?_, ?_, ?_⟩
  · rw [hks, List.length_drop]
    omega
  · rw [hks, List.length_drop, hlen]
    omega
  · rw [hks, List.map_drop]
    exact hndsrt.sublist (List.drop_sublist _ _)
  · rw [hks]
    exact hsort.sublist (List.drop_sublist _ _)
  · intro p hp
    rw [hks] at hp
    have hpsrt : p ∈ List.insertionSort entryLe (buildCounts (commits.map monthKey)) :=
      (List.drop_sublist _ _).mem hp
    have hpbc : p ∈ buildCounts (commits.map monthKey) := hperm.mem_iff.mp hpsrt
    constructor
    · have hfind := find?_eq_of_mem_nodup _ p hndbc hpbc
      have hgc : getCount (buildCounts (commits.map monthKey)) p.1 = p.2 := by
        unfold getCount
        rw [hfind]
      have := getCount_foldl (commits.map monthKey) [] p.1
      unfold buildCounts at hgc
      rw [this] at hgc
      simpa [getCount, List.find?] using hgc.symm
    · have : p.1 ∈ (buildCounts (commits.map monthKey)).map Prod.fst :=
        List.mem_map_of_mem Prod.fst hpbc
      have hh := (foldl_bump_keys (commits.map monthKey) [] p.1).mp this
      simpa using hh
  · intro k hk hnot p hp
    have hkbc : k ∈ (buildCounts (commits.map monthKey)).map Prod.fst :=
      (foldl_bump_keys (commits.map monthKey) [] k).mpr (Or.inr hk)
    obtain ⟨q, hqbc, hq1⟩ := List.mem_map.mp hkbc
    have hqsrt : q ∈ List.insertionSort entryLe (buildCounts (commits.map monthKey)) :=
      hperm.mem_iff.mpr hqbc
    have hsplit := List.take_append_drop
      ((List.insertionSort entryLe (buildCounts (commits.map monthKey))).length - 12)
      (List.insertionSort entryLe (buildCounts (commits.map monthKey)))
    have hqtake : q ∈ (List.insertionSort entryLe (buildCounts (commits.map monthKey))).take
        ((List.insertionSort entryLe (buildCounts (commits.map monthKey))).length - 12) := by
      rcases List.mem_append.mp (by rw [hsplit]; exact hqsrt) with h | h
      · exact h
      · exfalso
        apply hnot
        rw [hks, ← hq1]
        exact List.mem_map_of_mem Prod.fst h
    have hpw : List.Pairwise entryLe
        ((List.insertionSort entryLe (buildCounts (commits.map monthKey))).take
            ((List.insertionSort entryLe (buildCounts (commits.map monthKey))).length - 12) ++
          (List.insertionSort entryLe (buildCounts (commits.map monthKey))).drop
            ((List.insertionSort entryLe (buildCounts (commits.map monthKey))).length - 12)) := by
      rw [hsplit]
      exact hsort
    have hle : entryLe q p := by
      have := (List.pairwise_append.mp hpw).2.2 q hqtake p (by rw [hks] at hp; exact hp)
      exact this
    constructor
    · rw [← hq1]
      exact hle
    · intro hkp
      have hnd2 : ((List.insertionSort entryLe (buildCounts (commits.map monthKey))).map
            Prod.fst).Nodup := hndsrt
      have hmapsplit : (List.insertionSort entryLe (buildCounts (commits.map monthKey))).map
            Prod.fst =
          ((List.insertionSort entryLe (buildCounts (commits.map monthKey))).take
              ((List.insertionSort entryLe (buildCounts (commits.map monthKey))).length -
                12)).map Prod.fst ++
          ((List.insertionSort entryLe (buildCounts (commits.map monthKey))).drop
              ((List.insertionSort entryLe (buildCounts (commits.map monthKey))).length -
                12)).map Prod.fst := by
        rw [← List.map_append, hsplit]
      have hdisj := List.disjoint_of_nodup_append (by rw [← hmapsplit]; exact hnd2)
      apply hdisj (a := k)
      · rw [← hq1]
        exact List.mem_map_of_mem Prod.fst hqtake
      · rw [hkp]
        rw [hks] at hp
        exact List.mem_map_of_mem Prod.fst hp

/-- A small concrete run of the amended timeline characterization: two May
commits and one June commit produce the row (2023-05, 2), whose count is the
number of commits in that month and whose key is present in the input. -/
theorem c10_timeline_amended_witness :
    ((monthKey (2023, 5), 2).2 =
        ([(2023, 5), (2023, 5), (2023, 6)].map monthKey).count (monthKey (2023, 5), 2).1 ∧
      (monthKey (2023, 5), 2).1 ∈ [(2023, 5), (2023, 5), (2023, 6)].map monthKey) :=
  (c10_timeline_amended [(2023, 5), (2023, 5), (2023, 6)]).2.2.2.2.1
    (monthKey (2023, 5), 2) (by decide)

